import Mathlib

/-!
Verification of the umbrella dependency-injection engine and initializer
pipeline, shallowly embedded from the JavaScript sources
(`lib/util.js`, `lib/utilities.js`, the injector module `create`, the
initializer module, and `lib/umbrella.js`).
-/

namespace Umbrella

/-- JavaScript runtime values, as far as the injection engine observes them:
it only ever tests truthiness, compares against `null`, and passes values
through unchanged. Functions and objects are represented by an opaque id. -/
inductive Value where
  | vUndefined
  | vNull
  | vBool (b : Bool)
  | vNum (n : Int)
  | vNaN
  | vStr (s : String)
  | vFun (id : Nat)
  | vObj (id : Nat)
  deriving DecidableEq, Repr

/-- JavaScript truthiness: `false`, `0`, `NaN`, the empty string, `null` and
`undefined` are falsy; every other value is truthy. -/
def truthy : Value → Bool
  | .vUndefined => false
  | .vNull => false
  | .vBool b => b
  | .vNum n => n != 0
  | .vNaN => false
  | .vStr s => s.length != 0
  | .vFun _ => true
  | .vObj _ => true

/-- `typeof v === 'function'` -/
def isFunctionValue : Value → Bool
  | .vFun _ => true
  | _ => false

/-- The errors thrown by the engine, one constructor per `throw` site (plus
`userError` for exceptions raised by user-supplied bodies):
* `arityError` — `'dependency injection must invoke, additional parameters not allowed.'`
* `tooEarly k` — `'umbrella internal component %s accessed too early when not yet initialized.'`
* `asyncNotInvokable` — `'async initializer not invokable with callback, ...'`
* `asyncExtraParams` — `'async initializers cannot take additional parameters except done-callback'` -/
inductive JsError where
  | arityError
  | tooEarly (key : String)
  | asyncNotInvokable
  | asyncExtraParams
  | userError (msg : String)
  deriving DecidableEq, Repr

/-- A dependency registry as the injector reads it: property access on a plain
object, where a missing key reads as `undefined`. -/
abbrev Registry := String → Value

/-- A JavaScript callable as the engine observes it: its ordered formal
parameter names (what `getFunctionParameters` recovers from the source text)
and its body, which receives the `this`-context and the positional argument
list and either returns a value or throws. -/
structure Callable where
  params : List String
  body : Value → List Value → Except JsError Value

/-- The dependency-collection loop of `injectDependencies` / the injector's
`create`: scan the parameter names left to right, pushing the registry value
while the lookup is truthy, and `break` at the first falsy lookup. -/
def injectLoop (reg : Registry) : List String → List Value
  | [] => []
  | p :: ps => if truthy (reg p) then reg p :: injectLoop reg ps else []

/-- The wrapper closure built when parameters remain beyond the resolved
dependencies: it captures the context, the original function and the resolved
dependency values, and carries the `exParamLength` own-property counting the
parameters beyond dependencies. -/
structure Wrapper where
  context : Value
  func : Value → List Value → Except JsError Value
  injectArgs : List Value
  exParamLength : Nat

/-- The result of a (non-throwing) injection: either the original function was
invoked and returned a value, or a wrapper function was returned. -/
inductive InjectResult where
  | invoked (v : Value)
  | wrapper (w : Wrapper)

/-- `injectDependencies` (`lib/util.js`) / the function returned by the
injector module's `create(context, injectComponents)`: resolve a truthy prefix
of the parameter names against the registry; if parameters remain, either
throw (when `mustInvoke`) or return a wrapper with the dependencies bound;
otherwise invoke the function with the resolved dependencies on `context`. -/
def injectDependencies (context : Value) (injectComponents : Registry)
    (func : Callable) (mustInvoke : Bool) : Except JsError InjectResult :=
  let args := func.params
  let injectArgs := injectLoop injectComponents args
  if injectArgs.length < args.length then
    if mustInvoke then
      .error .arityError
    else
      .ok (.wrapper { context := context, func := func.body,
                      injectArgs := injectArgs,
                      exParamLength := args.length - injectArgs.length })
  else
    (func.body context injectArgs).map .invoked

/-- Invoking the wrapper with additional arguments runs
`func.apply(context, injectArgs.concat(arguments))`. -/
def invokeWrapper (w : Wrapper) (extra : List Value) : Except JsError Value :=
  w.func w.context (w.injectArgs ++ extra)

/-- The resolved prefix is exactly the longest truthy prefix of the parameter
list: the loop is a greedy prefix match. -/
theorem injectLoop_eq_takeWhile (reg : Registry) (ps : List String) :
    injectLoop reg ps = (ps.takeWhile (fun p => truthy (reg p))).map reg := by
  induction ps with
  | nil => rfl
  | cons p ps ih =>
    by_cases h : truthy (reg p)
    · simp [injectLoop, List.takeWhile, h, ih]
    · simp [injectLoop, List.takeWhile, h]

/-- If the first `i` parameter names look up truthy and the `i`-th looks up
falsy, the loop resolves exactly the first `i` parameters. -/
theorem injectLoop_take (reg : Registry) :
    ∀ (ps : List String) (i : Nat) (hi : i < ps.length),
    (∀ j (hj : j < i), truthy (reg (ps.get ⟨j, hj.trans hi⟩)) = true) →
    truthy (reg (ps.get ⟨i, hi⟩)) = false →
    injectLoop reg ps = (ps.take i).map reg := by
  intro ps
  induction ps with
  | nil => intro i hi; exact absurd hi (by simp)
  | cons p ps ih =>
    intro i hi hpre hstop
    cases i with
    | zero =>
      simp only [List.get] at hstop
      simp [injectLoop, hstop]
    | succ i =>
      have hp : truthy (reg p) = true := hpre 0 (Nat.succ_pos i)
      have hi' : i < ps.length := Nat.lt_of_succ_lt_succ hi
      have hpre' : ∀ j (hj : j < i), truthy (reg (ps.get ⟨j, hj.trans hi'⟩)) = true := by
        intro j hj
        exact hpre (j + 1) (Nat.succ_lt_succ hj)
      have hstop' : truthy (reg (ps.get ⟨i, hi'⟩)) = false := hstop
      simp [injectLoop, hp, List.take, ih i hi' hpre' hstop']

/-- `determineAsync` (`lib/utilities.js`): a function is asynchronous iff its
parameter list is non-empty and its last parameter (`args.pop()`) is `done`. -/
def determineAsync (params : List String) : Bool :=
  match params.getLast? with
  | some last => last == "done"
  | none => false

/-- The advisory-warning condition of `determineAsync`: not async, yet `done`
occurs among the remaining (non-final) parameters after the `pop`. -/
def determineAsyncWarning (params : List String) : Bool :=
  !determineAsync params && params.dropLast.contains "done"

/-- The observable behaviour of the step function returned by
`createInitializerFunction` when the pipeline invokes it with a completion
callback: either the callback is fired immediately (with an optional error),
or the injected async wrapper is invoked with the callback as its single
argument, or an exception escapes the step synchronously. -/
inductive StepOutcome where
  | callbackFired (err : Option JsError)
  | invokedWithCallback (w : Wrapper)
  | escaped (e : JsError)

/-- `createInitializerFunction(inject, initializer)` from the initializer
module, applied to the pipeline's callback. Async branch: inject with
`mustInvoke = false`; a non-function result fires the callback with the
not-invokable error; a function whose `exParamLength` own-property is not `1`
fires the callback with the extra-parameters error (an invoked result that
happens to be a function has no `exParamLength`, so it also fails here);
otherwise the wrapper is invoked with the callback. Sync branch: inject with
`mustInvoke = true` inside `try/catch`, firing the callback with `null` on
success and with the caught error otherwise. -/
def createInitializerFunction (context : Value) (injectComponents : Registry)
    (initializer : Callable) : StepOutcome :=
  if determineAsync initializer.params then
    match injectDependencies context injectComponents initializer false with
    | .error e => .escaped e
    | .ok (.invoked v) =>
      if isFunctionValue v then .callbackFired (some .asyncExtraParams)
      else .callbackFired (some .asyncNotInvokable)
    | .ok (.wrapper w) =>
      if w.exParamLength == 1 then .invokedWithCallback w
      else .callbackFired (some .asyncExtraParams)
  else
    match injectDependencies context injectComponents initializer true with
    | .ok _ => .callbackFired none
    | .error e => .callbackFired (some e)

/-- The `dependencies` field of an Initializer Descriptor as JavaScript sees
it: absent (`undefined`), an array, or any other single value. -/
inductive DepField where
  | absent
  | scalar (v : Value)
  | array (vs : List Value)
  deriving Repr

/-- The `initArgs` computation of `init` in `lib/umbrella.js`:
`Array.isArray(d) ? d : (d ? [d] : [])`. -/
def initArgs (d : DepField) : List Value :=
  match d with
  | .array vs => vs
  | .absent => []
  | .scalar v => if truthy v then [v] else []

/-- Modelled from the spec: the ordered fail-fast sequencing the pipeline
obtains from the external `async` library's `series` (the library is a
dependency, not code of this repository). Each step is represented by an
identifier together with the optional error its completion signal will carry.
Steps run strictly in declared order; the first step whose signal carries an
error stops the run and its error is reported as the single overall
completion error; the overall signal carries no error only when every step's
signal carried none. Returns the identifiers of the executed steps in
execution order, paired with the overall completion error. -/
def asyncSeries (steps : List (Nat × Option JsError)) :
    List Nat × Option JsError :=
  match steps with
  | [] => ([], none)
  | (id, sig) :: rest =>
    match sig with
    | some e => ([id], some e)
    | none =>
      let r := asyncSeries rest
      (id :: r.1, r.2)

/-- The inputs of `createInjectionComponents` (`lib/utilities.js`): the
enumerable keys and values of the external (user-supplied) components object
and the keys of the internal components object. The internal values are read
through getters at access time, so they are passed separately to the read
function below. -/
structure InjectionComponents where
  extKeys : List String
  extVal : String → Value
  intKeys : List String

/-- Property access on the object built by `createInjectionComponents`: an
external key is served by its getter; a key of the form `'$' + k` for an
internal key `k` (and not shadowed by an external key) is served by the
internal getter, which throws the accessed-too-early error while the slot is
still `null` and returns the slot's current value once populated; any other
key reads as `undefined`. `intState` is the internal components object at the
time of the read. -/
def injectionComponentsGet (r : InjectionComponents)
    (intState : String → Value) (key : String) : Except JsError Value :=
  if r.extKeys.contains key then
    .ok (r.extVal key)
  else
    match r.intKeys.find? (fun k => key == "$" ++ k) with
    | some k =>
      if intState k == .vNull then .error (.tooEarly k)
      else .ok (intState k)
    | none => .ok .vUndefined

/-- Claim C1: dependency resolution is a greedy prefix match — parameters are
scanned left to right and matching stops at the first parameter whose name
does not resolve in the registry; a parameter after the gap is never resolved
even if its name exists in the registry. In particular a callable
`(x, dep, y)` where `dep` resolves but `x` does not yields a wrapper with 3
residual parameters and zero resolved dependencies. -/
theorem greedy_gap_never_skipped (reg : Registry) (ctx : Value)
    (body : Value → List Value → Except JsError Value) (x dep y : String)
    (hx : reg x = .vUndefined) (_hdep : truthy (reg dep) = true) :
    injectDependencies ctx reg ⟨[x, dep, y], body⟩ false =
      .ok (.wrapper ⟨ctx, body, [], 3⟩)
    ∧ ∀ (reg2 : Registry) (c : Callable),
        injectLoop reg2 c.params =
          (c.params.takeWhile (fun p => truthy (reg2 p))).map reg2 := by
  constructor
  · simp [injectDependencies, injectLoop, hx, truthy]
  · intro reg2 c
    exact injectLoop_eq_takeWhile reg2 c.params

/-- Witness for C1 at a concrete registry containing `dep` but not `x`. -/
theorem greedy_gap_never_skipped_witness :
    injectDependencies (.vObj 0)
        (fun k => if k = "dep" then .vNum 1 else .vUndefined)
        ⟨["x", "dep", "y"], fun _ _ => .ok .vUndefined⟩ false =
      .ok (.wrapper ⟨.vObj 0, fun _ _ => .ok .vUndefined, [], 3⟩)
    ∧ ∀ (reg2 : Registry) (c : Callable),
        injectLoop reg2 c.params =
          (c.params.takeWhile (fun p => truthy (reg2 p))).map reg2 :=
  greedy_gap_never_skipped _ _ _ "x" "dep" "y" (by decide) (by decide)

/-- Claim C2: with parameters `[a, b, c]` and a registry resolving `a` and `b`
but not containing `c`, injection with `mustInvoke = false` returns a wrapper
whose `exParamLength` is 1, and invoking that wrapper with one extra value `x`
calls the original body with `(registry a, registry b, x)` on the injector's
context. -/
theorem partial_injection_wrapper (reg : Registry) (ctx xv : Value)
    (body : Value → List Value → Except JsError Value) (a b c : String)
    (ha : truthy (reg a) = true) (hb : truthy (reg b) = true)
    (hc : reg c = .vUndefined) :
    ∃ w, injectDependencies ctx reg ⟨[a, b, c], body⟩ false = .ok (.wrapper w)
      ∧ w.exParamLength = 1
      ∧ invokeWrapper w [xv] = body ctx [reg a, reg b, xv] := by
  refine ⟨⟨ctx, body, [reg a, reg b], 1⟩, ?_, rfl, rfl⟩
  simp [injectDependencies, injectLoop, ha, hb, hc,
    show truthy .vUndefined = false from rfl]

/-- Witness for C2 at a concrete registry resolving `a` and `b` only. -/
theorem partial_injection_wrapper_witness :
    ∃ w, injectDependencies (.vObj 0)
        (fun k => if k = "a" then .vNum 1 else if k = "b" then .vNum 2 else .vUndefined)
        ⟨["a", "b", "c"], fun _ _ => .ok .vUndefined⟩ false = .ok (.wrapper w)
      ∧ w.exParamLength = 1
      ∧ invokeWrapper w [.vStr "extra"] =
          (fun _ _ => (.ok .vUndefined : Except JsError Value)) (Value.vObj 0)
            [(fun k => if k = "a" then Value.vNum 1 else if k = "b" then Value.vNum 2 else Value.vUndefined) "a",
             (fun k => if k = "a" then Value.vNum 1 else if k = "b" then Value.vNum 2 else Value.vUndefined) "b",
             .vStr "extra"] :=
  partial_injection_wrapper _ _ _ _ "a" "b" "c" (by decide) (by decide) (by decide)

/-- Claim C3: injection with `mustInvoke = true` throws the arity error
(`'dependency injection must invoke, additional parameters not allowed.'`)
exactly when the greedy prefix match leaves at least one trailing parameter
unresolved; when every parameter resolves, injection with either value of
`mustInvoke` invokes the callable immediately and returns its own result,
never a wrapper. The hypothesis records that the callable's own body does not
throw the injector's distinguished arity error (distinct `Error` objects in
the source). -/
theorem mustInvoke_arity (ctx : Value) (reg : Registry) (c : Callable)
    (hbody : ∀ v args, c.body v args ≠ .error .arityError) :
    (injectDependencies ctx reg c true = .error .arityError ↔
      (injectLoop reg c.params).length < c.params.length)
    ∧ ((injectLoop reg c.params).length = c.params.length →
        ∀ mi, injectDependencies ctx reg c mi =
          (c.body ctx (injectLoop reg c.params)).map .invoked) := by
  constructor
  · constructor
    · intro h
      by_contra hlt
      simp only [injectDependencies, if_neg hlt] at h
      cases hB : c.body ctx (injectLoop reg c.params) with
      | ok v => rw [hB] at h; exact Except.noConfusion h
      | error e =>
        rw [hB] at h
        simp only [Except.map] at h
        cases h
        exact hbody ctx (injectLoop reg c.params) hB
    · intro hlt
      simp [injectDependencies, hlt]
  · intro heq mi
    have hnl : ¬ (injectLoop reg c.params).length < c.params.length := by omega
    simp [injectDependencies, hnl]

/-- Witness for C3 at a one-parameter callable and the empty registry. -/
theorem mustInvoke_arity_witness :
    (injectDependencies (.vObj 0) (fun _ => .vUndefined)
        ⟨["p"], fun _ _ => .ok (.vNum 7)⟩ true = .error .arityError ↔
      (injectLoop (fun _ => .vUndefined)
        (Callable.params ⟨["p"], fun _ _ => .ok (.vNum 7)⟩)).length <
        (Callable.params ⟨["p"], fun _ _ => .ok (.vNum 7)⟩).length)
    ∧ ((injectLoop (fun _ => .vUndefined)
          (Callable.params ⟨["p"], fun _ _ => .ok (.vNum 7)⟩)).length =
        (Callable.params ⟨["p"], fun _ _ => .ok (.vNum 7)⟩).length →
        ∀ mi, injectDependencies (.vObj 0) (fun _ => .vUndefined)
            ⟨["p"], fun _ _ => .ok (.vNum 7)⟩ mi =
          (Callable.body ⟨["p"], fun _ _ => .ok (.vNum 7)⟩ (.vObj 0)
            (injectLoop (fun _ => .vUndefined)
              (Callable.params ⟨["p"], fun _ _ => .ok (.vNum 7)⟩))).map .invoked) :=
  mustInvoke_arity _ _ _ (by intro v args h; exact Except.noConfusion h)

/-- Claim C4: for descriptor steps `[A, B, C]` where `B`'s completion signal
carries an error, the pipeline executes exactly `A` then `B` in that order,
never starts `C`, and reports `B`'s error as the single overall completion
error; and the overall completion carries no error exactly when every step's
signal carried none. -/
theorem series_fail_fast (a b c : Nat) (e : JsError) (sc : Option JsError)
    (steps : List (Nat × Option JsError)) :
    asyncSeries [(a, none), (b, some e), (c, sc)] = ([a, b], some e)
    ∧ ((asyncSeries steps).2 = none ↔ ∀ p ∈ steps, p.2 = none) := by
  constructor
  · rfl
  · induction steps with
    | nil => simp [asyncSeries]
    | cons s rest ih =>
      obtain ⟨id, sig⟩ := s
      cases sig with
      | none => simpa [asyncSeries] using ih
      | some e2 => simp [asyncSeries]

/-- Witness for C4 at a concrete three-step run. -/
theorem series_fail_fast_witness :
    asyncSeries [(10, none), (11, some .asyncExtraParams), (12, none)] =
      ([10, 11], some .asyncExtraParams)
    ∧ ((asyncSeries []).2 = none ↔ ∀ p ∈ ([] : List (Nat × Option JsError)), p.2 = none) :=
  series_fail_fast 10 11 12 .asyncExtraParams none []

/-- Claim C5: a callable is classified asynchronous exactly when its parameter
list is non-empty and its last parameter is named `done`; a callable with no
parameters or without `done` is synchronous; and a (duplicate-free, as JS
strict mode requires) parameter list containing `done` in a non-final
position is classified synchronous with the advisory warning emitted. -/
theorem determineAsync_spec (params : List String) :
    (determineAsync params = true ↔ params ≠ [] ∧ params.getLast? = some "done")
    ∧ ((params = [] ∨ "done" ∉ params) → determineAsync params = false)
    ∧ (params.Nodup → "done" ∈ params.dropLast →
        determineAsync params = false ∧ determineAsyncWarning params = true) := by
  have hmain : determineAsync params = true ↔
      params ≠ [] ∧ params.getLast? = some "done" := by
    cases hl : params.getLast? with
    | none =>
      have hnil : params = [] := by
        cases params with
        | nil => rfl
        | cons p ps =>
          rw [List.getLast?_eq_getLast_of_ne_nil (List.cons_ne_nil p ps)] at hl
          exact Option.noConfusion hl
      subst hnil
      simp [determineAsync]
    | some lastv =>
      have hne : params ≠ [] := by
        intro hnil
        subst hnil
        exact Option.noConfusion hl
      simp [determineAsync, hl, hne]
  refine ⟨hmain, ?_, ?_⟩
  · rintro (hnil | hnotin)
    · subst hnil; rfl
    · by_contra habs
      have h1 : determineAsync params = true := by
        cases h2 : determineAsync params with
        | true => rfl
        | false => exact absurd h2 habs
      obtain ⟨hne, hl⟩ := hmain.mp h1
      obtain ⟨h3, h4⟩ := List.mem_getLast?_eq_getLast (by rw [hl]; rfl)
      exact hnotin (h4 ▸ List.getLast_mem h3)
  · intro hnd hmem
    have hne : params ≠ [] := by
      intro hnil
      subst hnil
      exact absurd hmem (by simp)
    have hsplit := List.dropLast_append_getLast hne
    have hnd2 : (params.dropLast ++ [params.getLast hne]).Nodup := by
      rw [hsplit]; exact hnd
    have hdisj := (List.nodup_append.mp hnd2).2.2
    have hlastne : params.getLast hne ≠ "done" := by
      intro h
      exact hdisj hmem (by simp [h])
    have hsync : determineAsync params = false := by
      cases h2 : determineAsync params with
      | false => rfl
      | true =>
        obtain ⟨_, hl⟩ := hmain.mp h2
        rw [List.getLast?_eq_getLast_of_ne_nil hne] at hl
        exact absurd (Option.some.injEq _ _ ▸ hl) hlastne
    refine ⟨hsync, ?_⟩
    simp [determineAsyncWarning, hsync, List.contains, List.elem_iff, hmem]

/-- Witness for C5 at the parameter list `(a, done, b)`. -/
theorem determineAsync_spec_witness :
    determineAsync ["a", "done", "b"] = false
    ∧ determineAsyncWarning ["a", "done", "b"] = true :=
  (determineAsync_spec ["a", "done", "b"]).2.2 (by decide) (by decide)

/-- Claim C6: for an initializer classified asynchronous, exactly one residual
parameter (the completion callback) must remain after injection: an injection
that invoked the unit (returned a non-wrapper) or a wrapper whose
`exParamLength` differs from 1 makes the step fail with a misconfiguration
error delivered through the step's completion signal, and a wrapper whose
`exParamLength` is 1 is invoked with the completion callback as its single
argument. -/
theorem async_step_arity (ctx : Value) (reg : Registry) (init : Callable)
    (hasync : determineAsync init.params = true) :
    (∀ v, injectDependencies ctx reg init false = .ok (.invoked v) →
      createInitializerFunction ctx reg init =
          .callbackFired (some .asyncNotInvokable)
        ∨ createInitializerFunction ctx reg init =
          .callbackFired (some .asyncExtraParams))
    ∧ (∀ w, injectDependencies ctx reg init false = .ok (.wrapper w) →
        w.exParamLength ≠ 1 →
        createInitializerFunction ctx reg init =
          .callbackFired (some .asyncExtraParams))
    ∧ (∀ w, injectDependencies ctx reg init false = .ok (.wrapper w) →
        w.exParamLength = 1 →
        createInitializerFunction ctx reg init = .invokedWithCallback w) := by
  refine ⟨?_, ?_, ?_⟩
  · intro v hv
    by_cases hf : isFunctionValue v = true
    · right; simp [createInitializerFunction, hasync, hv, hf]
    · left
      simp [createInitializerFunction, hasync, hv,
        Bool.eq_false_iff.mpr hf]
  · intro w hw hne
    have hbeq : (w.exParamLength == 1) = false := by
      simp [hne]
    simp [createInitializerFunction, hasync, hw, hbeq]
  · intro w hw heq
    simp [createInitializerFunction, hasync, hw, heq]

/-- Witness for C6 at the one-parameter async initializer `function(done)`
and an empty registry: injection leaves exactly the callback, so the wrapper
is invoked with the callback. -/
theorem async_step_arity_witness :
    createInitializerFunction (.vObj 0) (fun _ => .vUndefined)
        ⟨["done"], fun _ _ => .ok .vUndefined⟩ =
      .invokedWithCallback ⟨.vObj 0, fun _ _ => .ok .vUndefined, [], 1⟩ :=
  (async_step_arity (.vObj 0) (fun _ => .vUndefined)
      ⟨["done"], fun _ _ => .ok .vUndefined⟩ rfl).2.2
    ⟨.vObj 0, fun _ _ => .ok .vUndefined, [], 1⟩ rfl rfl

/-- Claim C7: for an initializer classified synchronous, any exception thrown
during its injected (forced) invocation is caught and carried to the step's
completion signal rather than escaping synchronously, and when no exception
occurs the signal carries no error. -/
theorem sync_step_catches (ctx : Value) (reg : Registry) (init : Callable)
    (hsync : determineAsync init.params = false) :
    (∀ r, injectDependencies ctx reg init true = .ok r →
      createInitializerFunction ctx reg init = .callbackFired none)
    ∧ (∀ e, injectDependencies ctx reg init true = .error e →
      createInitializerFunction ctx reg init = .callbackFired (some e)) := by
  constructor
  · intro r hr
    simp [createInitializerFunction, hsync, hr]
  · intro e he
    simp [createInitializerFunction, hsync, he]

/-- Witness for C7 at a zero-parameter initializer whose body returns
normally. -/
theorem sync_step_catches_witness :
    createInitializerFunction (.vObj 0) (fun _ => .vUndefined)
        ⟨[], fun _ _ => .ok .vUndefined⟩ = .callbackFired none :=
  (sync_step_catches (.vObj 0) (fun _ => .vUndefined)
      ⟨[], fun _ _ => .ok .vUndefined⟩ rfl).1 (.invoked .vUndefined) rfl

/-- Prepending the internal sigil to a key is injective. -/
theorem dollar_append_inj {s t : String} (h : "$" ++ s = "$" ++ t) : s = t := by
  have h2 := congrArg String.data h
  rw [String.data_append, String.data_append] at h2
  exact String.ext (List.append_cancel_left h2)

/-- Looking up the sigil-prefixed form of a present internal key finds exactly
that key. -/
theorem find?_dollar (intKeys : List String) (k : String) (hk : k ∈ intKeys) :
    intKeys.find? (fun q => ("$" ++ k) == "$" ++ q) = some k := by
  induction intKeys with
  | nil => cases hk
  | cons h t ih =>
    by_cases hh : ("$" ++ k : String) = "$" ++ h
    · have hkh : k = h := dollar_append_inj hh
      subst hkh
      simp [List.find?_cons]
    · have hne : k ≠ h := fun he => hh (by rw [he])
      have hkt : k ∈ t := by
        cases List.mem_cons.mp hk with
        | inl he => exact absurd he hne
        | inr ht => exact ht
      have hbeq : (("$" ++ k : String) == "$" ++ h) = false := by
        simp [hh]
      rw [List.find?_cons]
      simp only [hbeq]
      exact ih hkt

/-- Claim C8: reading a sigil-prefixed internal registry entry while its
underlying slot is still `null` throws the accessed-too-early error rather
than returning `null` or `undefined`; once the slot is populated, the read
returns the populated value. The hypotheses state that the key is an internal
key and is not shadowed by an external component. -/
theorem internal_slot_too_early (r : InjectionComponents)
    (intState : String → Value) (k : String)
    (hk : k ∈ r.intKeys) (hext : r.extKeys.contains ("$" ++ k) = false) :
    (intState k = .vNull →
      injectionComponentsGet r intState ("$" ++ k) = .error (.tooEarly k))
    ∧ (intState k ≠ .vNull →
      injectionComponentsGet r intState ("$" ++ k) = .ok (intState k)) := by
  have hext2 : ("$" ++ k : String) ∉ r.extKeys := by
    intro hmem
    have hc : r.extKeys.contains ("$" ++ k) = true := by
      simp [List.contains, List.elem_iff, hmem]
    rw [hc] at hext
    exact Bool.noConfusion hext
  constructor
  · intro hnull
    simp [injectionComponentsGet, hext2, find?_dollar r.intKeys k hk, hnull]
  · intro hval
    simp [injectionComponentsGet, hext2, find?_dollar r.intKeys k hk, hval]

/-- Witness for C8: the internal key `app`, read before and after its slot is
populated. -/
theorem internal_slot_too_early_witness :
    injectionComponentsGet ⟨["comp"], fun _ => .vNum 1, ["app"]⟩
        (fun _ => .vNull) ("$" ++ "app") = .error (.tooEarly "app")
    ∧ injectionComponentsGet ⟨["comp"], fun _ => .vNum 1, ["app"]⟩
        (fun _ => .vObj 5) ("$" ++ "app") = .ok ((fun _ => Value.vObj 5) "app") :=
  ⟨(internal_slot_too_early ⟨["comp"], fun _ => .vNum 1, ["app"]⟩
      (fun _ => .vNull) "app" (by decide) (by decide)).1 rfl,
   (internal_slot_too_early ⟨["comp"], fun _ => .vNum 1, ["app"]⟩
      (fun _ => .vObj 5) "app" (by decide) (by decide)).2 (by decide)⟩

/-- C9 counterexample: the descriptor field `dependencies: 0` is a scalar, yet
the built extra-argument list is empty, not `[0]` — the code tests the scalar
for truthiness (`d ? [d] : []`), so a falsy scalar is dropped. -/
theorem initArgs_falsy_scalar_counterexample :
    initArgs (.scalar (.vNum 0)) = []
    ∧ initArgs (.scalar (.vNum 0)) ≠ [Value.vNum 0] := by
  decide

/-- Claim C9 (amended): an absent `dependencies` field yields the empty list,
an array value is used as-is, a truthy scalar yields the single-element list
containing it, and a falsy scalar (`false`, `0`, `NaN`, the empty string,
`null`) yields the empty list, the same as an absent field. -/
theorem initArgs_spec :
    initArgs .absent = []
    ∧ (∀ vs, initArgs (.array vs) = vs)
    ∧ (∀ v, truthy v = true → initArgs (.scalar v) = [v])
    ∧ (∀ v, truthy v = false → initArgs (.scalar v) = []) := by
  refine ⟨rfl, fun vs => rfl, ?_, ?_⟩ <;> intro v h <;> simp [initArgs, h]

/-- Witness for C9 (amended) at a truthy and a falsy scalar. -/
theorem initArgs_spec_witness :
    initArgs (.scalar (.vNum 5)) = [Value.vNum 5]
    ∧ initArgs (.scalar (.vStr "")) = [] :=
  ⟨initArgs_spec.2.2.1 (.vNum 5) (by decide),
   initArgs_spec.2.2.2 (.vStr "") (by decide)⟩

/-- The collection loop only looks at truthiness and at the values of truthy
lookups: two registries that agree on those produce the same resolved
prefix. -/
theorem injectLoop_congr (reg reg2 : Registry)
    (h : ∀ p, truthy (reg2 p) = truthy (reg p)
      ∧ (truthy (reg p) = true → reg2 p = reg p)) :
    ∀ ps : List String, injectLoop reg2 ps = injectLoop reg ps := by
  intro ps
  induction ps with
  | nil => rfl
  | cons p ps ih =>
    obtain ⟨ht, hv⟩ := h p
    by_cases hp : truthy (reg p) = true
    · rw [injectLoop, injectLoop, ht, hp, if_pos rfl, if_pos rfl, hv hp, ih]
    · have hp2 : truthy (reg p) = false := Bool.eq_false_iff.mpr hp
      rw [injectLoop, injectLoop, ht, hp2]
      simp

/-- Claim C10: a parameter whose registry value is falsy (`false`, `0`, the
empty string, `null`, `undefined`, `NaN`) stops the prefix match at its
position: it and every later parameter are residual, and the injection result
is exactly the one obtained with that name absent from the registry — key
presence alone does not make a parameter resolvable. -/
theorem falsy_value_stops_match (ctx : Value) (reg : Registry) (c : Callable)
    (i : Nat) (hi : i < c.params.length)
    (hpre : ∀ j (hj : j < i), truthy (reg (c.params.get ⟨j, hj.trans hi⟩)) = true)
    (hstop : truthy (reg (c.params.get ⟨i, hi⟩)) = false) :
    injectDependencies ctx reg c false =
      .ok (.wrapper ⟨ctx, c.body, (c.params.take i).map reg, c.params.length - i⟩)
    ∧ injectDependencies ctx reg c false =
      injectDependencies ctx
        (fun k => if k = c.params.get ⟨i, hi⟩ then Value.vUndefined else reg k)
        c false := by
  have hloop : injectLoop reg c.params = (c.params.take i).map reg :=
    injectLoop_take reg c.params i hi hpre hstop
  have hlen : ((c.params.take i).map reg).length = i := by
    rw [List.length_map, List.length_take]
    omega
  have hlt : (injectLoop reg c.params).length < c.params.length := by
    rw [hloop, hlen]; exact hi
  constructor
  · simp only [injectDependencies, hloop, hlen]
    simp [hi]
  · have hcongr : injectLoop
        (fun k => if k = c.params.get ⟨i, hi⟩ then Value.vUndefined else reg k)
        c.params = injectLoop reg c.params := by
      apply injectLoop_congr
      intro p
      by_cases hp : p = c.params.get ⟨i, hi⟩
      · subst hp
        constructor
        · show truthy (if c.params.get ⟨i, hi⟩ = c.params.get ⟨i, hi⟩
              then Value.vUndefined else reg (c.params.get ⟨i, hi⟩)) =
            truthy (reg (c.params.get ⟨i, hi⟩))
          rw [if_pos rfl, hstop]
          rfl
        · intro htr
          rw [htr] at hstop
          exact Bool.noConfusion hstop
      · constructor
        · show truthy (if p = c.params.get ⟨i, hi⟩
              then Value.vUndefined else reg p) = truthy (reg p)
          rw [if_neg hp]
        · intro _
          show (if p = c.params.get ⟨i, hi⟩
              then Value.vUndefined else reg p) = reg p
          rw [if_neg hp]
    simp only [injectDependencies, hcongr]

/-- Witness for C10: parameter list `(a, b)` with `a` bound to `1` and `b`
present in the registry but bound to the falsy `0`; the match stops at `b`. -/
theorem falsy_value_stops_match_witness :
    injectDependencies (.vObj 0)
        (fun k => if k = "b" then .vNum 0 else .vNum 1)
        ⟨["a", "b"], fun _ _ => .ok .vUndefined⟩ false =
      .ok (.wrapper ⟨.vObj 0, fun _ _ => .ok .vUndefined,
        ((Callable.params ⟨["a", "b"], fun _ _ => .ok .vUndefined⟩).take 1).map
          (fun k => if k = "b" then .vNum 0 else .vNum 1),
        (Callable.params ⟨["a", "b"], fun _ _ => .ok .vUndefined⟩).length - 1⟩)
    ∧ injectDependencies (.vObj 0)
        (fun k => if k = "b" then .vNum 0 else .vNum 1)
        ⟨["a", "b"], fun _ _ => .ok .vUndefined⟩ false =
      injectDependencies (.vObj 0)
        (fun k => if k = (Callable.params
            ⟨["a", "b"], fun _ _ => .ok .vUndefined⟩).get ⟨1, by decide⟩
          then Value.vUndefined
          else (fun k => if k = "b" then Value.vNum 0 else Value.vNum 1) k)
        ⟨["a", "b"], fun _ _ => .ok .vUndefined⟩ false :=
  falsy_value_stops_match (.vObj 0)
    (fun k => if k = "b" then .vNum 0 else .vNum 1)
    ⟨["a", "b"], fun _ _ => .ok .vUndefined⟩ 1 (by decide)
    (by
      intro j hj
      have hj0 : j = 0 := by omega
      subst hj0
      rfl)
    rfl

end Umbrella
